import Mathlib

/-!
Verification of the `lyricsx` LRC-lyrics library.

This file gives a shallow embedding, in Lean 4, of the core of the
`lyricsx` Python repository:

* `src/lyricsx/model.py`            — `LRCTime`, `LyricLine`, `CombinedLyricLine`,
                                      `LyricMeta`, `StandardLyricDocument`;
* `src/lyricsx/enhanced_model.py`   — `TimedCharacter`, `EnhancedLyricLine`,
                                      `EnhancedCombinedLyricLine`;
* `src/lyricsx/parser/lrc_parser.py`— `StandardLRCParser.parse`,
                                      `StandardLRCParser.parse_with_translate`.

Modelling conventions:

* Machine integers are `Nat` (all quantities in the source are non-negative
  counts of minutes/seconds/milliseconds).
* Python code that can raise (`LRCTime.__init__` raising `ValueError`,
  and the parser, which does not catch that error) is modelled with `Option`:
  `none` is an uncaught exception.
* Python's `timedelta` stores the time exactly at microsecond granularity,
  so `LRCTime` is represented by its exact total-millisecond value
  (`round(self.time.total_seconds() * 1000)`); float rounding of
  `total_seconds` only matters for astronomically large timestamps and is
  outside the model.
* Strings are Lean `String`s; regular expressions of the source are
  replaced by hand-rolled matchers over `List Char` that implement the
  exact backtracking behaviour of the concrete patterns used
  (`\[([a-zA-Z]{2,3}):([^]]+)]`, `\[(\d{2}):(\d{2})\.(\d{1,3})](.*)` and
  `\[(\d{2}):(\d{2})\.(\d{1,3})\]([^\[\]]*)`).  Python's `\d`, `[a-zA-Z]`,
  `str.isdigit`, `str.strip` and `str.splitlines` are modelled at ASCII
  granularity (the exotic Unicode digit/whitespace classes are not used by
  the repository's data).
* Python's `list.sort` (Timsort: stable, ascending with respect to `__lt__`)
  is modelled by `List.insertionSort` with the non-strict comparison
  `a.time ≤ b.time`, which is stable and produces the same ascending order
  for the total preorders used here.
-/

/-! ## Decimal digit machinery (Python `int(...)`, `str.isdigit`, `f"{n:02d}"`) -/

/-- Value of a decimal digit character. -/
def charDigitVal (c : Char) : Nat := c.toNat - 48

/-- Decimal value of a list of digit characters, most significant first.
This is Python `int(s)` restricted to strings of ASCII digits. -/
def listDigitsVal (l : List Char) : Nat :=
  l.foldl (fun a c => a * 10 + charDigitVal c) 0

/-- Python `int(s)` for a digit string `s`. -/
def digitsToNat (s : String) : Nat := listDigitsVal s.toList

/-- Python `str.isdigit` (ASCII): non-empty and all characters are digits. -/
def pyIsdigit (s : String) : Prop :=
  s.toList ≠ [] ∧ ∀ c ∈ s.toList, c.isDigit = true

instance (s : String) : Decidable (pyIsdigit s) := by
  unfold pyIsdigit; infer_instance

/-- Python `s.ljust(3, "0")`: pad on the right with `'0'` up to length 3
(strings of length ≥ 3 are returned unchanged). -/
def pyLjust3 (s : String) : String :=
  ⟨s.toList ++ List.replicate (3 - s.toList.length) '0'⟩

/-- The character of a decimal digit. -/
def digitChar (d : Nat) : Char := Char.ofNat (48 + d)

/-- Decimal digits of `n`, least significant first, with explicit fuel so the
definition is structural (kernel-reducible).  Fuel `n` is always sufficient. -/
def natDigitsRevFuel : Nat → Nat → List Char
  | 0, _ => []
  | _ + 1, 0 => []
  | f + 1, n + 1 => digitChar ((n + 1) % 10) :: natDigitsRevFuel f ((n + 1) / 10)

/-- Decimal representation of `n`, most significant first: Python `str(n)`. -/
def natDecChars (n : Nat) : List Char :=
  if n = 0 then ['0'] else (natDigitsRevFuel n n).reverse

/-- Left-pad with `'0'` to width `w`: the pad step of Python `f"{n:0wd}"`. -/
def padLeftZeros (w : Nat) (l : List Char) : List Char :=
  List.replicate (w - l.length) '0' ++ l

/-- Python `f"{n:02d}"`. -/
def fmt2 (n : Nat) : String := ⟨padLeftZeros 2 (natDecChars n)⟩

/-- Python `f"{n:03d}"`. -/
def fmt3 (n : Nat) : String := ⟨padLeftZeros 3 (natDecChars n)⟩

/-! ## `LRCTime` (`src/lyricsx/model.py`, lines 8–129) -/

/-- `LRCTime`: an LRC timestamp, canonically its exact total-millisecond
value (the Python object stores an equivalent `timedelta`; equality and
order compare that value). -/
structure LRCTime where
  total : Nat
deriving DecidableEq, Repr, BEq

/-- `LRCTime.__init__`, from the three string parts.  `none` models the
raised `ValueError`.  The source's checks, in order: every part passes
`str.isdigit`; the parts convert by `int` (cannot fail after `isdigit`,
with `milliseconds.ljust(3, "0")` applied first); `min_val < 0` (can never
fire: `int` of a digit string is non-negative, so it is omitted here);
`0 <= sec_val <= 59`; `0 <= ms_val <= 999` (the lower bounds are vacuous
on `Nat`). -/
def LRCTime.mk? (minutes seconds milliseconds : String) : Option LRCTime :=
  if pyIsdigit minutes ∧ pyIsdigit seconds ∧ pyIsdigit milliseconds then
    let secVal := digitsToNat seconds
    let msVal := digitsToNat (pyLjust3 milliseconds)
    if secVal ≤ 59 then
      if msVal ≤ 999 then
        some ⟨digitsToNat minutes * 60000 + secVal * 1000 + msVal⟩
      else none
    else none
  else none

/-- `LRCTime.from_total_milliseconds`: format the three components with
`f"{...:02d}"`/`f"{...:03d}"` and re-enter the constructor. -/
def LRCTime.from_total_milliseconds (milliseconds : Nat) : Option LRCTime :=
  LRCTime.mk? (fmt2 (milliseconds / 60000))
    (fmt2 ((milliseconds % 60000) / 1000))
    (fmt3 (milliseconds % 1000))

/-- `LRCTime.milliseconds` property. -/
def LRCTime.milliseconds (t : LRCTime) : Nat := t.total % 1000

/-- `LRCTime.seconds` property. -/
def LRCTime.seconds (t : LRCTime) : Nat := t.total / 1000 % 60

/-- `LRCTime.minutes` property. -/
def LRCTime.minutes (t : LRCTime) : Nat := t.total / 60000

/-- `LRCTime.__str__`: `f"{minutes:02}:{seconds:02}.{milliseconds:03}"`. -/
def LRCTime.str (t : LRCTime) : String :=
  fmt2 t.minutes ++ ":" ++ fmt2 t.seconds ++ "." ++ fmt3 t.milliseconds

/-! ## `LyricLine`, `CombinedLyricLine`, `LyricMeta`, documents
(`src/lyricsx/model.py`, lines 132–224) -/

/-- `LyricLine`: one timed line (a timestamp plus its text payload). -/
structure LyricLine where
  time : LRCTime
  texts : String
deriving DecidableEq, Repr

/-- `LyricLine.empty_line`: `LyricLine(LRCTime("00", "00", "000"), "")`
(the constructor succeeds with total value 0). -/
def LyricLine.empty_line : LyricLine := ⟨⟨0⟩, ""⟩

/-- `LyricLine.__str__`: `f"[{self.time}]{self.texts}"`. -/
def LyricLine.str (l : LyricLine) : String :=
  "[" ++ l.time.str ++ "]" ++ l.texts

/-- `CombinedLyricLine`: one origin line plus its translation lines. -/
structure CombinedLyricLine where
  origin : LyricLine
  time : LRCTime
  trans : List LyricLine
deriving DecidableEq, Repr

/-- `CombinedLyricLine.__init__`: store the origin and its time, and for
each translation append a deep copy whose `time` field is overwritten with
the origin's time (the caller's objects are left untouched: in this pure
embedding the copy-then-mutate is a functional record update). -/
def CombinedLyricLine.make (origin : LyricLine) (trans : List LyricLine) :
    CombinedLyricLine :=
  { origin := origin
    time := origin.time
    trans := trans.map (fun t => { t with time := origin.time }) }

/-- `CombinedLyricLine.__str__`: a blank origin collapses to a single
bracketed-timestamp line; otherwise the origin's line followed by one line
per translation with non-empty text, newline-joined. -/
def CombinedLyricLine.str (c : CombinedLyricLine) : String :=
  if c.origin.texts = "" then
    "[" ++ c.time.str ++ "]" ++ c.origin.texts
  else
    String.intercalate "\n"
      (c.origin.str :: (c.trans.filter (fun t => t.texts ≠ "")).map LyricLine.str)

/-- `LyricMeta`: a metadata tag/value pair.  (The constructor's
non-emptiness check cannot fire from the parser, whose regex guarantees a
2–3 letter tag and a non-empty value, so the check is not modelled.) -/
structure LyricMeta where
  tag : String
  value : String
deriving DecidableEq, Repr

/-- `StandardLyricDocument` as produced by `StandardLRCParser.parse`:
plain `LyricLine`s plus metadata. -/
structure StandardLyricDocument where
  lines : List LyricLine
  meta : List LyricMeta
deriving DecidableEq, Repr

/-- `StandardLyricDocument` as produced by `parse_with_translate`:
`CombinedLyricLine`s plus metadata (in the source both shapes share one
class whose `lines` list is a union type). -/
structure CombinedLyricDocument where
  lines : List CombinedLyricLine
  meta : List LyricMeta
deriving DecidableEq, Repr

/-! ## Regex matchers of `StandardLRCParser`
(`src/lyricsx/parser/lrc_parser.py`, lines 21–40) -/

/-- Python `str.strip` (ASCII whitespace). -/
def stripChars (l : List Char) : List Char :=
  ((l.dropWhile Char.isWhitespace).reverse.dropWhile Char.isWhitespace).reverse

/-- Python `str.splitlines` (over `\n`, `\r\n` and `\r`; no trailing empty
line for a terminator-final string). -/
def pySplitlinesAux : List Char → List Char → List String
  | [], acc => if acc = [] then [] else [⟨acc.reverse⟩]
  | '\r' :: '\n' :: rest, acc => ⟨acc.reverse⟩ :: pySplitlinesAux rest []
  | '\n' :: rest, acc => ⟨acc.reverse⟩ :: pySplitlinesAux rest []
  | '\r' :: rest, acc => ⟨acc.reverse⟩ :: pySplitlinesAux rest []
  | c :: rest, acc => pySplitlinesAux rest (c :: acc)

/-- Python `text.splitlines()`. -/
def pySplitlines (s : String) : List String := pySplitlinesAux s.toList []

/-- The `([^]]+)]` tail of the metadata regex: the characters before the
first `']'`, provided a `']'` exists.  (The greedy `[^]]+` consumes every
non-`']'` character and then requires `']'`, so it matches exactly the run
up to the first `']'`.) -/
def takeToRBracket : List Char → Option (List Char)
  | [] => none
  | ']' :: _ => some []
  | c :: rest => (takeToRBracket rest).map (c :: ·)

/-- The `([^]]+)]` tail, requiring a non-empty value. -/
def tagValue (l : List Char) : Option String :=
  match takeToRBracket l with
  | some v => if v = [] then none else some ⟨v⟩
  | none => none

/-- `re.match(r"\[([a-zA-Z]{2,3}):([^]]+)]", line)`: anchored at the start,
greedy on the tag length (three letters are tried before two; the two
alternatives are mutually exclusive because the third character cannot be
both a letter and `':'`), trailing characters ignored. -/
def tagMatch (l : List Char) : Option (String × String) :=
  match l with
  | '[' :: c1 :: c2 :: rest =>
    if c1.isAlpha ∧ c2.isAlpha then
      match rest with
      | c3 :: rest2 =>
        if c3.isAlpha then
          match rest2 with
          | ':' :: rest3 =>
            match tagValue rest3 with
            | some v => some (⟨[c1, c2, c3]⟩, v)
            | none => none
          | _ => none
        else if c3 = ':' then
          match tagValue rest2 with
          | some v => some (⟨[c1, c2]⟩, v)
          | none => none
        else none
      | [] => none
    else none
  | _ => none

/-- One attempt of `\d{n}]` for the `\.(\d{1,3})]` part: exactly `n`
leading digit characters followed by `']'`. -/
def msecN (n : Nat) (l : List Char) : Option (List Char × List Char) :=
  if (l.take n).length = n ∧ ∀ c ∈ l.take n, c.isDigit = true then
    match l.drop n with
    | ']' :: after => some (l.take n, after)
    | _ => none
  else none

/-- The `(\d{1,3})]` part with the regex's greedy backtracking: three
digits are tried first, then two, then one. -/
def matchMsec (l : List Char) : Option (List Char × List Char) :=
  match msecN 3 l with
  | some r => some r
  | none =>
    match msecN 2 l with
    | some r => some r
    | none => msecN 1 l

/-- One attempt, at a fixed position, of
`\[(\d{2}):(\d{2})\.(\d{1,3})](.*)`: on success, the four captured groups
(minutes, seconds, milliseconds, remaining text). -/
def tryTimedAt (l : List Char) : Option (String × String × String × String) :=
  match l with
  | '[' :: d1 :: d2 :: ':' :: d3 :: d4 :: '.' :: rest =>
    if d1.isDigit ∧ d2.isDigit ∧ d3.isDigit ∧ d4.isDigit then
      match matchMsec rest with
      | some (ms, after) => some (⟨[d1, d2]⟩, ⟨[d3, d4]⟩, ⟨ms⟩, ⟨after⟩)
      | none => none
    else none
  | _ => none

/-- `re.findall(r"\[(\d{2}):(\d{2})\.(\d{1,3})](.*)", line)[0]`: the
leftmost match of the timed-line pattern (the trailing `(.*)` reaches the
end of the line, so there is at most one match). -/
def findTimed : List Char → Option (String × String × String × String)
  | [] => none
  | c :: rest =>
    match tryTimedAt (c :: rest) with
    | some r => some r
    | none => findTimed rest

/-! ## `StandardLRCParser.parse` (`src/lyricsx/parser/lrc_parser.py`, 16–40) -/

/-- Processing of one physical line of `StandardLRCParser.parse`:
strip, try the metadata regex, else try the timed-line regex and build the
`LyricLine` (with the milliseconds group `ljust(3, "0")`-padded first).
`none` is an uncaught `ValueError` from `LRCTime`; `some none` is the
silent skip (the `IndexError` branch); `some (some ...)` is a produced
metadata entry or timed line. -/
def stdLineStep (raw : String) : Option (Option (LyricMeta ⊕ LyricLine)) :=
  let l := stripChars raw.toList
  match tagMatch l with
  | some (tag, value) => some (some (Sum.inl ⟨tag, value⟩))
  | none =>
    match findTimed l with
    | none => some none
    | some (mi, se, ms, txt) =>
      match LRCTime.mk? mi se (pyLjust3 ms) with
      | none => none
      | some t => some (some (Sum.inr ⟨t, txt⟩))

/-- The line/metadata accumulation loop of `StandardLRCParser.parse`
(both lists keep input order). -/
def parseStdLines : List String → Option (List LyricLine × List LyricMeta)
  | [] => some ([], [])
  | raw :: rest =>
    match stdLineStep raw with
    | none => none
    | some none => parseStdLines rest
    | some (some (Sum.inl m)) =>
      (parseStdLines rest).map (fun p => (p.1, m :: p.2))
    | some (some (Sum.inr l)) =>
      (parseStdLines rest).map (fun p => (l :: p.1, p.2))

/-- `StandardLRCParser.parse`. -/
def parseStd (text : String) : Option StandardLyricDocument :=
  (parseStdLines (pySplitlines text)).map (fun p => ⟨p.1, p.2⟩)

/-! ## `StandardLRCParser.parse_with_translate`
(`src/lyricsx/parser/lrc_parser.py`, lines 42–78) -/

/-- `abs(x - y)` on the two total-millisecond values. -/
def msDiff (a b : Nat) : Nat := max a b - min a b

/-- Python `list.sort()` on `LyricLine`s (stable, ascending by `time`). -/
def sortLyricLines (l : List LyricLine) : List LyricLine :=
  List.insertionSort (fun a b => a.time.total ≤ b.time.total) l

/-- Python `list.sort()` on `CombinedLyricLine`s (stable, ascending by
`time`, which is the origin's time). -/
def sortCombined (l : List CombinedLyricLine) : List CombinedLyricLine :=
  List.insertionSort (fun a b => a.time.total ≤ b.time.total) l

/-- The `available_tran` list-comprehension (lines 61–66): all lines of one
translation document within `interval` milliseconds of the origin line. -/
def availableTran (interval : Nat) (o : LyricLine) (tlines : List LyricLine) :
    List LyricLine :=
  tlines.filter (fun x => msDiff x.time.total o.time.total ≤ interval)

/-- Lines 59–68: from each translation document that has at least one
in-tolerance line, take `available_tran[0]`. -/
def selectTrans (interval : Nat) (ts : List (List LyricLine)) (o : LyricLine) :
    List LyricLine :=
  ts.filterMap (fun t => (availableTran interval o t).head?)

/-- Lines 56–73, one loop iteration: combine the origin line with the
selected translations, or with the single empty placeholder when none were
selected anywhere. -/
def mergeOne (interval : Nat) (ts : List (List LyricLine)) (o : LyricLine) :
    CombinedLyricLine :=
  let avail := selectTrans interval ts o
  if avail.isEmpty then CombinedLyricLine.make o [LyricLine.empty_line]
  else CombinedLyricLine.make o avail

/-- `StandardLRCParser.parse_with_translate`: parse the origin and every
translation text, sort each document's lines, merge line by line, and sort
the final document. -/
def parse_with_translate (origin : String) (interval : Nat)
    (trans : List String) : Option CombinedLyricDocument := do
  let po ← parseStd origin
  let pts ← trans.mapM parseStd
  let sortedO := sortLyricLines po.lines
  let sortedTs := pts.map (fun d => sortLyricLines d.lines)
  pure ⟨sortCombined (sortedO.map (mergeOne interval sortedTs)), po.meta⟩

/-! ## Enhanced model (`src/lyricsx/enhanced_model.py`) -/

/-- `TimedCharacter`: one timed text span (the "character" may be any
bracket-free string). -/
structure TimedCharacter where
  time : LRCTime
  character : String
deriving DecidableEq, Repr

/-- `EnhancedLyricLine`: an ordered sequence of timed characters plus the
optional end-time override. -/
structure EnhancedLyricLine where
  characters : List TimedCharacter
  end_time_override : Option LRCTime := none
deriving DecidableEq, Repr

/-- `EnhancedLyricLine.start_time`: time of the first character, absent
for an empty line. -/
def EnhancedLyricLine.start_time (l : EnhancedLyricLine) : Option LRCTime :=
  l.characters.head?.map (·.time)

/-- `EnhancedLyricLine.end_time`: the override when set, else the time of
the last character, absent for an empty line. -/
def EnhancedLyricLine.end_time (l : EnhancedLyricLine) : Option LRCTime :=
  match l.end_time_override with
  | some t => some t
  | none => l.characters.getLast?.map (·.time)

/-- `EnhancedLyricLine.text`: concatenation of the character payloads. -/
def EnhancedLyricLine.text (l : EnhancedLyricLine) : String :=
  String.join (l.characters.map (·.character))

/-- `EnhancedLyricLine.__lt__`: an empty line is never less than anything;
anything non-empty is less than an empty line; otherwise compare start
times. -/
def elineLt (a b : EnhancedLyricLine) : Bool :=
  match a.start_time with
  | none => false
  | some ta =>
    match b.start_time with
    | none => true
    | some tb => ta.total < tb.total

/-- `EnhancedLyricLine.__eq__`: equality of the optional start times. -/
def elineEq (a b : EnhancedLyricLine) : Bool :=
  a.start_time == b.start_time

/-- The ordering in which Python's stable sort arranges enhanced lines:
`a` may come before `b` exactly when `not (b < a)`. -/
def elineLe (a b : EnhancedLyricLine) : Prop := elineLt b a = false

instance : DecidableRel elineLe := by
  unfold elineLe; infer_instance

/-- Python `sorted` / `list.sort` on enhanced lines (stable, by
`__lt__`). -/
def sortEnhanced (l : List EnhancedLyricLine) : List EnhancedLyricLine :=
  List.insertionSort elineLe l

/-- One attempt, at a fixed position, of
`\[(\d{2}):(\d{2})\.(\d{1,3})\]([^\[\]]*)`: on success, the four captured
groups and the remaining input after the whole match (the capture is the
maximal bracket-free run, where `re.findall` resumes scanning). -/
def enhTryAt (l : List Char) :
    Option ((String × String × String × String) × List Char) :=
  match l with
  | '[' :: d1 :: d2 :: ':' :: d3 :: d4 :: '.' :: rest =>
    if d1.isDigit ∧ d2.isDigit ∧ d3.isDigit ∧ d4.isDigit then
      match matchMsec rest with
      | some (ms, after) =>
        some ((⟨[d1, d2]⟩, ⟨[d3, d4]⟩, ⟨ms⟩,
               ⟨after.takeWhile (fun c => c ≠ '[' ∧ c ≠ ']')⟩),
              after.dropWhile (fun c => c ≠ '[' ∧ c ≠ ']'))
      | none => none
    else none
  | _ => none

/-- `re.findall(r"\[(\d{2}):(\d{2})\.(\d{1,3})\]([^\[\]]*)", s)`: all
non-overlapping matches, scanning left to right (each successful match
consumes at least the whole bracket, so fuel `l.length` always
suffices). -/
def enhFindAllFuel : Nat → List Char → List (String × String × String × String)
  | 0, _ => []
  | _ + 1, [] => []
  | f + 1, c :: rest =>
    match enhTryAt (c :: rest) with
    | some (m, remaining) => m :: enhFindAllFuel f remaining
    | none => enhFindAllFuel f rest

/-- The accumulation loop over matches: build each element, failing the
whole computation on the first failure (an uncaught exception). -/
def traverseOption {α β : Type} (f : α → Option β) : List α → Option (List β)
  | [] => some []
  | a :: l =>
    match f a, traverseOption f l with
    | some b, some bs => some (b :: bs)
    | _, _ => none

/-- `EnhancedLyricLine.from_string`: one `TimedCharacter` per regex match,
in textual order (`TimedCharacter.standard_parse` hands the raw 1–3 digit
milliseconds group to `LRCTime`, which right-pads it itself); `none`
models an uncaught `ValueError` from `LRCTime`. -/
def EnhancedLyricLine.from_string (s : String) : Option EnhancedLyricLine :=
  (traverseOption
      (fun q => (LRCTime.mk? q.1 q.2.1 q.2.2.1).map
        (fun t => TimedCharacter.mk t q.2.2.2))
      (enhFindAllFuel s.toList.length s.toList)).map
    (fun cs => { characters := cs })

/-- A translation line as stored by `EnhancedCombinedLyricLine`: the copy's
`time` field is overwritten with `origin.start_time`, which is `None` when
the origin has no characters, so the field is optional. -/
structure ETransLine where
  time : Option LRCTime
  texts : String
deriving DecidableEq, Repr

/-- `EnhancedCombinedLyricLine`. -/
structure EnhancedCombinedLyricLine where
  origin : EnhancedLyricLine
  start_time : Option LRCTime
  end_time : Option LRCTime
  trans : List ETransLine
deriving DecidableEq, Repr

/-- `EnhancedCombinedLyricLine.__init__`: store the origin and its derived
start/end times, and for each translation append a deep copy whose `time`
field is overwritten with the origin's start time (the caller's objects
are left untouched; the copy-then-mutate is a functional record
update). -/
def EnhancedCombinedLyricLine.make (origin : EnhancedLyricLine)
    (trans : List LyricLine) : EnhancedCombinedLyricLine :=
  { origin := origin
    start_time := origin.start_time
    end_time := origin.end_time
    trans := trans.map (fun t => { time := origin.start_time, texts := t.texts }) }

/-! ## Declarative match shape (used to state what the timed-line regex
recognises, independently of the matcher's operational definition) -/

/-- `timedShape l mi se ms txt` says: `l` is, character for character, one
whole match of `\[(\d{2}):(\d{2})\.(\d{1,3})](.*)` anchored at its start,
with captured groups `mi`, `se`, `ms`, `txt`. -/
def timedShape (l : List Char) (mi se ms txt : String) : Prop :=
  ∃ d1 d2 d3 d4 msl,
    mi = ⟨[d1, d2]⟩ ∧ se = ⟨[d3, d4]⟩ ∧ ms = ⟨msl⟩
    ∧ d1.isDigit = true ∧ d2.isDigit = true
    ∧ d3.isDigit = true ∧ d4.isDigit = true
    ∧ (∀ c ∈ msl, c.isDigit = true) ∧ 1 ≤ msl.length ∧ msl.length ≤ 3
    ∧ l = '[' :: d1 :: d2 :: ':' :: d3 :: d4 :: '.' :: (msl ++ ']' :: txt.toList)

/-! ## Order instances for the enhanced-line sort -/

instance : IsTotal EnhancedLyricLine elineLe := by
  constructor
  intro a b
  unfold elineLe elineLt
  cases ha : a.start_time <;> cases hb : b.start_time <;>
    simp only [ha, hb] <;> simp <;> omega

instance : IsTrans EnhancedLyricLine elineLe := by
  constructor
  intro a b c hab hbc
  unfold elineLe elineLt at hab hbc ⊢
  cases ha : a.start_time <;> cases hb : b.start_time <;> cases hc : c.start_time <;>
    simp only [ha, hb, hc] at hab hbc ⊢ <;> simp_all <;> omega

/-! ## Theorems -/

/-- **C4.** Timestamp construction from three string parts fails exactly
when some part is non-numeric (fails Python's `isdigit`: empty or
containing a non-digit character), or the seconds value is outside
`[0, 59]`, or the milliseconds value after right-padding with zeros to
three digits is outside `[0, 999]`; every triple of digit strings with
in-range seconds and milliseconds is accepted. -/
theorem c4_timestamp_validation (m s ms : String) :
    LRCTime.mk? m s ms = none ↔
      (¬ pyIsdigit m ∨ ¬ pyIsdigit s ∨ ¬ pyIsdigit ms
        ∨ 59 < digitsToNat s ∨ 999 < digitsToNat (pyLjust3 ms)) := by
  by_cases h1 : pyIsdigit m ∧ pyIsdigit s ∧ pyIsdigit ms
  · by_cases h2 : digitsToNat s ≤ 59
    · by_cases h3 : digitsToNat (pyLjust3 ms) ≤ 999
      · constructor
        · intro h
          exfalso
          simp [LRCTime.mk?, h1.1, h1.2.1, h1.2.2, h2, h3] at h
        · rintro (h | h | h | h | h)
          · exact absurd h1.1 h
          · exact absurd h1.2.1 h
          · exact absurd h1.2.2 h
          · omega
          · omega
      · constructor
        · intro _
          right; right; right; right; omega
        · intro _
          simp [LRCTime.mk?, h1.1, h1.2.1, h1.2.2, h2, h3]
    · constructor
      · intro _
        right; right; right; left; omega
      · intro _
        simp [LRCTime.mk?, h1.1, h1.2.1, h1.2.2, h2]
  · constructor
    · intro _
      tauto
    · intro _
      simp [LRCTime.mk?, h1]

/-- **C2.** The merge tolerance window is inclusive: a translation line
exactly `interval` milliseconds from the origin line is in the candidate
set, and one `interval + 1` milliseconds away is not. -/
theorem c2_tolerance_boundary (interval : Nat) (o x : LyricLine)
    (t : List LyricLine) (hx : x ∈ t) :
    (msDiff x.time.total o.time.total = interval →
      x ∈ availableTran interval o t)
    ∧ (msDiff x.time.total o.time.total = interval + 1 →
      x ∉ availableTran interval o t) := by
  unfold availableTran
  constructor
  · intro h
    rw [List.mem_filter]
    exact ⟨hx, by simp [h]⟩
  · intro h hmem
    rw [List.mem_filter] at hmem
    have h2 := hmem.2
    rw [h] at h2
    simp at h2

/-- The head of a filtered list is the first element satisfying the
predicate: everything before it in the original list fails the
predicate. -/
theorem head?_filter_first {α : Type} (p : α → Bool) :
    ∀ (l : List α) (sel : α), (l.filter p).head? = some sel →
      ∃ pre post, l = pre ++ sel :: post ∧ p sel = true ∧ ∀ y ∈ pre, p y = false
  | [], sel => by intro h; simp at h
  | a :: rest, sel => by
    intro h
    rw [List.filter_cons] at h
    by_cases hp : p a = true
    · rw [if_pos hp] at h
      rw [List.head?_cons, Option.some_inj] at h
      subst h
      exact ⟨[], rest, rfl, hp, by simp⟩
    · rw [if_neg hp] at h
      obtain ⟨pre, post, heq, hsel, hpre⟩ := head?_filter_first p rest sel h
      refine ⟨a :: pre, post, by rw [List.cons_append, heq], hsel, ?_⟩
      intro y hy
      rcases List.mem_cons.mp hy with hy | hy
      · subst hy
        exact Bool.eq_false_iff.mpr hp
      · exact hpre y hy

/-- **C1.** In `parse_with_translate`, per origin line and per translation
document: (i) the candidate set `available_tran` is exactly the lines of
the document within `interval` milliseconds of the origin's timestamp;
(ii) when non-empty, the selected line `available_tran[0]` is the first
candidate in document order (hence, on the time-sorted document, the
earliest-timestamped candidate); (iii) that line need not be the
nearest-in-time candidate, as a concrete sorted document shows. -/
theorem c1_merge_first_candidate (interval : Nat) (o : LyricLine)
    (t : List LyricLine) :
    (∀ x, x ∈ availableTran interval o t ↔
        x ∈ t ∧ msDiff x.time.total o.time.total ≤ interval)
    ∧ (∀ sel, (availableTran interval o t).head? = some sel →
        ∃ pre post, t = pre ++ sel :: post
          ∧ msDiff sel.time.total o.time.total ≤ interval
          ∧ ∀ y ∈ pre, ¬ msDiff y.time.total o.time.total ≤ interval)
    ∧ ((availableTran 1000 ⟨⟨10000⟩, "o"⟩
          [⟨⟨9000⟩, "early"⟩, ⟨⟨10000⟩, "near"⟩]).head?
            = some ⟨⟨9000⟩, "early"⟩
        ∧ (⟨⟨10000⟩, "near"⟩ : LyricLine) ∈
            availableTran 1000 ⟨⟨10000⟩, "o"⟩
              [⟨⟨9000⟩, "early"⟩, ⟨⟨10000⟩, "near"⟩]
        ∧ msDiff 10000 10000 < msDiff 9000 10000) := by
  refine ⟨?_, ?_, by decide⟩
  · intro x
    rw [availableTran, List.mem_filter]
    simp
  · intro sel h
    obtain ⟨pre, post, heq, hsel, hpre⟩ := head?_filter_first _ t sel h
    refine ⟨pre, post, heq, by simpa using hsel, ?_⟩
    intro y hy
    have hy2 := hpre y hy
    simpa using hy2

/-- **C3.** When no translation document yields any in-tolerance candidate
for an origin line, the merge combines the origin with exactly one empty
placeholder translation line (text empty, stamped with the origin's time;
no error), and `parse_with_translate` always emits one `CombinedLyricLine`
per parsed origin line. -/
theorem c3_no_match_placeholder (interval : Nat) (o : LyricLine)
    (ts : List (List LyricLine))
    (h : ∀ t ∈ ts, availableTran interval o t = []) :
    (mergeOne interval ts o).origin = o
    ∧ (mergeOne interval ts o).trans = [⟨o.time, ""⟩]
    ∧ (∀ origin itv trs doc po,
        parse_with_translate origin itv trs = some doc →
        parseStd origin = some po →
        doc.lines.length = po.lines.length) := by
  have hsel : selectTrans interval ts o = [] := by
    unfold selectTrans
    rw [List.filterMap_eq_nil_iff]
    intro t ht
    rw [h t ht]
    rfl
  refine ⟨?_, ?_, ?_⟩
  · rw [mergeOne, hsel]
    rfl
  · rw [mergeOne, hsel]
    rfl
  · intro origin itv trs doc po h1 h2
    unfold parse_with_translate at h1
    rw [h2] at h1
    cases hm : trs.mapM parseStd with
    | none => rw [hm] at h1; simp at h1
    | some pts =>
      rw [hm] at h1
      simp at h1
      subst h1
      simp [sortCombined, sortLyricLines]

/-- **C9.** Constructing a combined line (standard and enhanced variants)
stores, for each input translation, a copy whose timestamp is rewritten to
the origin's start time and whose text is unchanged; the construction is a
pure function of its inputs (the source deep-copies each translation
before stamping, so the caller's objects are not mutated). -/
theorem c9_restamp_copy_on_write (o : LyricLine) (ts : List LyricLine)
    (eo : EnhancedLyricLine) (ets : List LyricLine) :
    ((CombinedLyricLine.make o ts).trans.map LyricLine.texts
        = ts.map LyricLine.texts
      ∧ ∀ t ∈ (CombinedLyricLine.make o ts).trans, t.time = o.time)
    ∧ ((EnhancedCombinedLyricLine.make eo ets).trans.map ETransLine.texts
        = ets.map LyricLine.texts
      ∧ ∀ t ∈ (EnhancedCombinedLyricLine.make eo ets).trans,
          t.time = eo.start_time) := by
  refine ⟨⟨?_, ?_⟩, ?_, ?_⟩
  · simp [CombinedLyricLine.make]
  · intro t ht
    simp only [CombinedLyricLine.make, List.mem_map] at ht
    obtain ⟨a, _, ha⟩ := ht
    rw [← ha]
  · simp [EnhancedCombinedLyricLine.make]
  · intro t ht
    simp only [EnhancedCombinedLyricLine.make, List.mem_map] at ht
    obtain ⟨a, _, ha⟩ := ht
    rw [← ha]

/-- Witness for C4 at the concrete rejected input `("00", "60", "000")`. -/
theorem c4_timestamp_validation_witness :
    ¬ pyIsdigit "00" ∨ ¬ pyIsdigit "60" ∨ ¬ pyIsdigit "000"
      ∨ 59 < digitsToNat "60" ∨ 999 < digitsToNat (pyLjust3 "000") :=
  (c4_timestamp_validation "00" "60" "000").mp (by decide)

/-- Witness for C1 at a concrete time-sorted translation document. -/
theorem c1_merge_first_candidate_witness :
    ∃ pre post,
      [(⟨⟨9000⟩, "early"⟩ : LyricLine), ⟨⟨10000⟩, "near"⟩]
          = pre ++ (⟨⟨9000⟩, "early"⟩ : LyricLine) :: post
        ∧ msDiff (⟨⟨9000⟩, "early"⟩ : LyricLine).time.total
            (⟨⟨10000⟩, "o"⟩ : LyricLine).time.total ≤ 1000
        ∧ ∀ y ∈ pre,
            ¬ msDiff y.time.total (⟨⟨10000⟩, "o"⟩ : LyricLine).time.total ≤ 1000 :=
  (c1_merge_first_candidate 1000 ⟨⟨10000⟩, "o"⟩
      [⟨⟨9000⟩, "early"⟩, ⟨⟨10000⟩, "near"⟩]).2.1
    ⟨⟨9000⟩, "early"⟩ (by decide)

/-- Witness for C2 at concrete lines 500 ms and 501 ms away from the
origin, with `interval = 500`. -/
theorem c2_tolerance_boundary_witness :
    ((⟨⟨1000⟩, "a"⟩ : LyricLine) ∈
        availableTran 500 ⟨⟨1500⟩, "o"⟩ [⟨⟨1000⟩, "a"⟩])
    ∧ ((⟨⟨999⟩, "b"⟩ : LyricLine) ∉
        availableTran 500 ⟨⟨1500⟩, "o"⟩ [⟨⟨999⟩, "b"⟩]) :=
  ⟨(c2_tolerance_boundary 500 ⟨⟨1500⟩, "o"⟩ ⟨⟨1000⟩, "a"⟩ [⟨⟨1000⟩, "a"⟩]
      (by decide)).1 (by decide),
   (c2_tolerance_boundary 500 ⟨⟨1500⟩, "o"⟩ ⟨⟨999⟩, "b"⟩ [⟨⟨999⟩, "b"⟩]
      (by decide)).2 (by decide)⟩

/-- Witness for C3 at a concrete origin line with one translation document
entirely out of tolerance. -/
theorem c3_no_match_placeholder_witness :
    (mergeOne 0 [[⟨⟨50000⟩, "far"⟩]] ⟨⟨12340⟩, "Hello"⟩).origin
        = (⟨⟨12340⟩, "Hello"⟩ : LyricLine)
    ∧ (mergeOne 0 [[⟨⟨50000⟩, "far"⟩]] ⟨⟨12340⟩, "Hello"⟩).trans
        = [⟨(⟨⟨12340⟩, "Hello"⟩ : LyricLine).time, ""⟩] :=
  ⟨(c3_no_match_placeholder 0 ⟨⟨12340⟩, "Hello"⟩ [[⟨⟨50000⟩, "far"⟩]]
      (by decide)).1,
   (c3_no_match_placeholder 0 ⟨⟨12340⟩, "Hello"⟩ [[⟨⟨50000⟩, "far"⟩]]
      (by decide)).2.1⟩

/-- Witness for C9 at a concrete translation line: the stored copy carries
the origin's time. -/
theorem c9_restamp_copy_on_write_witness :
    (⟨⟨7⟩, "hi"⟩ : LyricLine).time = (⟨⟨7⟩, "o"⟩ : LyricLine).time :=
  (c9_restamp_copy_on_write ⟨⟨7⟩, "o"⟩ [⟨⟨5⟩, "hi"⟩] ⟨[], none⟩ []).1.2
    ⟨⟨7⟩, "hi"⟩ (by decide)

/-- **C6 counterexample.** For the origin `"[00:12.340]Hello world"` merged
with `interval = 0` and no in-tolerance translation candidate, the
combined line's string form is `"[00:12.340]Hello world"` alone — not the
claimed `"[00:12.340]Hello world\n[00:12.340]"`: the empty placeholder's
text is empty, so `CombinedLyricLine.__str__` filters it out and no second
line is emitted. -/
theorem c6_render_counterexample :
    ((parse_with_translate "[00:12.340]Hello world" 0 []).map
        (fun d => d.lines.map CombinedLyricLine.str)
      = some ["[00:12.340]Hello world"])
    ∧ ("[00:12.340]Hello world" : String)
        ≠ "[00:12.340]Hello world\n[00:12.340]" := by
  constructor
  · decide
  · decide

/-- **C6 (amended).** For the origin `"[00:12.340]Hello world"` merged
with `interval = 0` and no translation candidate within 0 milliseconds,
the resulting combined line renders as exactly `"[00:12.340]Hello world"`:
the attached empty placeholder translation is suppressed from the output
(a translation line is printed only when its text is non-empty). -/
theorem c6_render_amended :
    (parse_with_translate "[00:12.340]Hello world" 0 []).map
        (fun d => d.lines.map CombinedLyricLine.str)
      = some ["[00:12.340]Hello world"] := by
  decide

/-! ### Decimal formatting lemmas (for the `from_total_milliseconds`
round-trip) -/

theorem toList_mk (l : List Char) : (String.mk l).toList = l := rfl

theorem digitChar_toNat (d : Nat) (hd : d < 10) :
    (digitChar d).toNat = 48 + d := by
  interval_cases d <;> decide

theorem digitChar_isDigit (d : Nat) (hd : d < 10) :
    (digitChar d).isDigit = true := by
  interval_cases d <;> decide

theorem listDigitsVal_snoc (l : List Char) (c : Char) :
    listDigitsVal (l ++ [c]) = listDigitsVal l * 10 + charDigitVal c := by
  unfold listDigitsVal
  rw [List.foldl_append]
  rfl

theorem natDigitsRevFuel_val (f : Nat) :
    ∀ n, n ≤ f → listDigitsVal (natDigitsRevFuel f n).reverse = n := by
  induction f with
  | zero =>
    intro n hn
    interval_cases n
    rfl
  | succ f ih =>
    intro n hn
    match n with
    | 0 => rfl
    | m + 1 =>
      simp only [natDigitsRevFuel, List.reverse_cons, listDigitsVal_snoc]
      rw [ih ((m + 1) / 10) (by omega)]
      unfold charDigitVal
      rw [digitChar_toNat ((m + 1) % 10) (by omega)]
      omega

theorem natDigitsRevFuel_digits (f : Nat) :
    ∀ n c, c ∈ natDigitsRevFuel f n → c.isDigit = true := by
  induction f with
  | zero =>
    intro n c hc
    simp [natDigitsRevFuel] at hc
  | succ f ih =>
    intro n c hc
    match n with
    | 0 => simp [natDigitsRevFuel] at hc
    | m + 1 =>
      simp only [natDigitsRevFuel, List.mem_cons] at hc
      rcases hc with hc | hc
      · subst hc
        exact digitChar_isDigit ((m + 1) % 10) (by omega)
      · exact ih ((m + 1) / 10) c hc

theorem natDecChars_nonempty (n : Nat) : natDecChars n ≠ [] := by
  unfold natDecChars
  split
  · simp
  · next h =>
    match n, h with
    | m + 1, _ => simp [natDigitsRevFuel]

theorem natDecChars_val (n : Nat) : listDigitsVal (natDecChars n) = n := by
  unfold natDecChars
  split
  · next h => subst h; rfl
  · exact natDigitsRevFuel_val n n le_rfl

theorem natDecChars_digits (n : Nat) :
    ∀ c ∈ natDecChars n, c.isDigit = true := by
  unfold natDecChars
  split
  · intro c hc
    simp at hc
    subst hc
    decide
  · intro c hc
    rw [List.mem_reverse] at hc
    exact natDigitsRevFuel_digits n n c hc

theorem listDigitsVal_zeros_append (k : Nat) (l : List Char) :
    listDigitsVal (List.replicate k '0' ++ l) = listDigitsVal l := by
  unfold listDigitsVal
  rw [List.foldl_append]
  congr 1
  induction k with
  | zero => rfl
  | succ k ih =>
    rw [List.replicate_succ, List.foldl_cons]
    have h0 : (0 : Nat) * 10 + charDigitVal '0' = 0 := by decide
    rw [h0, ih]

theorem pyIsdigit_fmt2 (n : Nat) : pyIsdigit (fmt2 n) := by
  constructor
  · rw [fmt2, toList_mk, padLeftZeros]
    intro hcontra
    exact natDecChars_nonempty n (List.append_eq_nil.mp hcontra).2
  · intro c hc
    rw [fmt2, toList_mk, padLeftZeros] at hc
    rcases List.mem_append.mp hc with hc | hc
    · rw [List.eq_of_mem_replicate hc]
      decide
    · exact natDecChars_digits n c hc

theorem pyIsdigit_fmt3 (n : Nat) : pyIsdigit (fmt3 n) := by
  constructor
  · rw [fmt3, toList_mk, padLeftZeros]
    intro hcontra
    exact natDecChars_nonempty n (List.append_eq_nil.mp hcontra).2
  · intro c hc
    rw [fmt3, toList_mk, padLeftZeros] at hc
    rcases List.mem_append.mp hc with hc | hc
    · rw [List.eq_of_mem_replicate hc]
      decide
    · exact natDecChars_digits n c hc

theorem digitsToNat_fmt2 (n : Nat) : digitsToNat (fmt2 n) = n := by
  rw [fmt2, digitsToNat, toList_mk, padLeftZeros, listDigitsVal_zeros_append,
    natDecChars_val]

theorem digitsToNat_fmt3 (n : Nat) : digitsToNat (fmt3 n) = n := by
  rw [fmt3, digitsToNat, toList_mk, padLeftZeros, listDigitsVal_zeros_append,
    natDecChars_val]

theorem pyLjust3_fmt3 (n : Nat) : pyLjust3 (fmt3 n) = fmt3 n := by
  rw [pyLjust3, fmt3, toList_mk]
  have hlen : 3 ≤ (padLeftZeros 3 (natDecChars n)).length := by
    rw [padLeftZeros, List.length_append, List.length_replicate]
    omega
  rw [Nat.sub_eq_zero_of_le hlen]
  simp

/-- `from_total_milliseconds` always succeeds and is exactly the identity
on the total-millisecond value. -/
theorem from_total_milliseconds_eq (T : Nat) :
    LRCTime.from_total_milliseconds T = some ⟨T⟩ := by
  rw [LRCTime.from_total_milliseconds]
  simp only [LRCTime.mk?, pyLjust3_fmt3, digitsToNat_fmt2, digitsToNat_fmt3]
  rw [if_pos ⟨pyIsdigit_fmt2 (T / 60000), pyIsdigit_fmt2 (T % 60000 / 1000),
      pyIsdigit_fmt3 (T % 1000)⟩]
  rw [if_pos (by omega : T % 60000 / 1000 ≤ 59)]
  rw [if_pos (by omega : T % 1000 ≤ 999)]
  congr 2
  omega

/-- **C5.** For every valid string triple accepted by the constructor,
feeding the resulting total-millisecond value back through
`from_total_milliseconds` reproduces the same timestamp (equality of
total-millisecond values). -/
theorem c5_from_total_roundtrip (m s ms : String) (t : LRCTime)
    (h : LRCTime.mk? m s ms = some t) :
    LRCTime.from_total_milliseconds t.total = some t := by
  cases t
  exact from_total_milliseconds_eq _

/-- Witness for C5 at the concrete triple `("00", "12", "340")`. -/
theorem c5_from_total_roundtrip_witness :
    LRCTime.from_total_milliseconds (LRCTime.mk 12340).total = some ⟨12340⟩ :=
  c5_from_total_roundtrip "00" "12" "340" ⟨12340⟩ (by decide)

/-! ### Helper lemmas for the enhanced matcher -/

theorem dropWhile_head_false {α : Type} (p : α → Bool) :
    ∀ l : List α, l.dropWhile p = [] ∨
      ∃ c rest, l.dropWhile p = c :: rest ∧ p c = false
  | [] => Or.inl rfl
  | a :: l => by
    rw [List.dropWhile_cons]
    by_cases hp : p a = true
    · rw [if_pos hp]
      exact dropWhile_head_false p l
    · rw [if_neg hp]
      exact Or.inr ⟨a, l, rfl, Bool.eq_false_iff.mpr hp⟩

/-- Each successful `enhTryAt` match has a bracket-free captured payload,
and scanning resumes either at the end of the line or at a bracket (the
capture is maximal). -/
theorem enhTryAt_payload (l : List Char) (m : String × String × String × String)
    (r : List Char) (h : enhTryAt l = some (m, r)) :
    (∀ c ∈ m.2.2.2.toList, c ≠ '[' ∧ c ≠ ']')
    ∧ (r = [] ∨ ∃ c rest, r = c :: rest ∧ (c = '[' ∨ c = ']')) := by
  unfold enhTryAt at h
  split at h
  · split at h
    · cases hm : matchMsec ‹List Char› with
      | none => rw [hm] at h; simp at h
      | some msafter =>
        rw [hm] at h
        simp only [Option.some_inj, Prod.mk.injEq] at h
        obtain ⟨hm1, hr⟩ := h
        constructor
        · intro c hc
          rw [← hm1] at hc
          simp only [toList_mk] at hc
          have := List.mem_takeWhile_imp hc
          simpa using this
        · rw [← hr]
          rcases dropWhile_head_false _ msafter.2 with hd | ⟨c, rest, hd, hpc⟩
          · exact Or.inl hd
          · refine Or.inr ⟨c, rest, hd, ?_⟩
            simp at hpc
            by_cases hcb : c = '['
            · exact Or.inl hcb
            · exact Or.inr (hpc hcb)
    · simp at h
  · simp at h

/-- Every match collected by the enhanced `findall` loop has a
bracket-free payload. -/
theorem enhFindAllFuel_payload :
    ∀ (fuel : Nat) (l : List Char) (q : String × String × String × String),
      q ∈ enhFindAllFuel fuel l → ∀ c ∈ q.2.2.2.toList, c ≠ '[' ∧ c ≠ ']' := by
  intro fuel
  induction fuel with
  | zero =>
    intro l q hq
    simp [enhFindAllFuel] at hq
  | succ f ih =>
    intro l q hq
    match l with
    | [] => simp [enhFindAllFuel] at hq
    | c0 :: rest =>
      simp only [enhFindAllFuel] at hq
      cases he : enhTryAt (c0 :: rest) with
      | some mr =>
        rw [he] at hq
        rcases List.mem_cons.mp hq with hq | hq
        · subst hq
          exact (enhTryAt_payload _ mr.1 mr.2 (by rw [he])).1
        · exact ih mr.2 q hq
      | none =>
        rw [he] at hq
        exact ih rest q hq

/-- If the element-wise traversal succeeds, every output element comes
from some input element. -/
theorem traverseOption_mem {α β : Type} (f : α → Option β) :
    ∀ (l : List α) (res : List β), traverseOption f l = some res →
      ∀ b ∈ res, ∃ a ∈ l, f a = some b
  | [], res => by
    intro h b hb
    simp only [traverseOption, Option.some_inj] at h
    subst h
    simp at hb
  | a :: l, res => by
    intro h b hb
    simp only [traverseOption] at h
    cases hfa : f a with
    | none => rw [hfa] at h; simp at h
    | some b0 =>
      rw [hfa] at h
      cases ht : traverseOption f l with
      | none => rw [ht] at h; simp at h
      | some bs =>
        rw [ht] at h
        simp only [Option.some_inj] at h
        subst h
        rcases List.mem_cons.mp hb with hb | hb
        · subst hb
          exact ⟨a, List.mem_cons_self a l, hfa⟩
        · obtain ⟨a2, ha2, hfa2⟩ := traverseOption_mem f l bs ht b hb
          exact ⟨a2, List.mem_cons_of_mem a ha2, hfa2⟩

/-- **C8.** `EnhancedLyricLine.from_string("[00:19.845]つ[00:20.084]ま")`
yields a line whose start time has millisecond component 845, whose end
time has millisecond component 84, and whose text is `"つま"`; in general
every `TimedCharacter` produced by `from_string` carries exactly the
captured text between its bracket and the next bracket or end of line
(bracket-free, and maximal: each `enhTryAt` match resumes at a bracket or
at the end of the line), collected left to right. -/
theorem c8_enhanced_from_string :
    (((EnhancedLyricLine.from_string "[00:19.845]つ[00:20.084]ま").map
        (fun l => (l.start_time.map LRCTime.milliseconds,
                   l.end_time.map LRCTime.milliseconds,
                   l.text)))
      = some (some 845, some 84, "つま"))
    ∧ (∀ s l, EnhancedLyricLine.from_string s = some l →
        ∀ tc ∈ l.characters, ∀ c ∈ tc.character.toList, c ≠ '[' ∧ c ≠ ']')
    ∧ (∀ l m r, enhTryAt l = some (m, r) →
        (∀ c ∈ m.2.2.2.toList, c ≠ '[' ∧ c ≠ ']')
        ∧ (r = [] ∨ ∃ c rest, r = c :: rest ∧ (c = '[' ∨ c = ']'))) := by
  refine ⟨by decide, ?_, fun l m r h => enhTryAt_payload l m r h⟩
  intro s l hl tc htc c hc
  unfold EnhancedLyricLine.from_string at hl
  cases ht : traverseOption
      (fun q => (LRCTime.mk? q.1 q.2.1 q.2.2.1).map
        (fun t => TimedCharacter.mk t q.2.2.2))
      (enhFindAllFuel s.toList.length s.toList) with
  | none => rw [ht] at hl; simp at hl
  | some cs =>
    rw [ht] at hl
    simp only [Option.map_some', Option.some_inj] at hl
    obtain ⟨q, hq, hfq⟩ := traverseOption_mem _ _ cs ht tc (by rw [← hl] at htc; exact htc)
    have hchar : tc.character = q.2.2.2 := by
      cases hmk : LRCTime.mk? q.1 q.2.1 q.2.2.1 with
      | none => rw [hmk] at hfq; simp at hfq
      | some t =>
        rw [hmk] at hfq
        simp only [Option.map_some', Option.some_inj] at hfq
        rw [← hfq]
    rw [hchar] at hc
    exact enhFindAllFuel_payload s.toList.length s.toList q hq c hc

/-- Witness for C8: a concrete character of a concrete parsed payload is
bracket-free. -/
theorem c8_enhanced_from_string_witness :
    ('a' : Char) ≠ '[' ∧ ('a' : Char) ≠ ']' :=
  c8_enhanced_from_string.2.1 "[00:01.000]ab"
    ⟨[⟨⟨1000⟩, "ab"⟩], none⟩ (by decide) ⟨⟨1000⟩, "ab"⟩ (by decide) 'a' (by decide)

/-- **C10.** In the enhanced-line ordering, an empty line (no characters,
absent start time) is never strictly less than any line; every line with
at least one character is strictly less than an empty line; two empty
lines compare equal; and sorting a list of enhanced lines (Python's
stable sort over `__lt__`) places every empty line after all non-empty
ones. -/
theorem c10_empty_lines_sort_last :
    (∀ a b : EnhancedLyricLine, a.characters = [] → elineLt a b = false)
    ∧ (∀ a b : EnhancedLyricLine, a.characters ≠ [] → b.characters = [] →
        elineLt a b = true)
    ∧ (∀ a b : EnhancedLyricLine, a.characters = [] → b.characters = [] →
        elineEq a b = true)
    ∧ (∀ (l : List EnhancedLyricLine) (i j : Nat), i < j →
        ∀ a b, (sortEnhanced l)[i]? = some a → (sortEnhanced l)[j]? = some b →
          a.characters = [] → b.characters = []) := by
  have hlt_of : ∀ a b : EnhancedLyricLine, a.characters ≠ [] →
      b.characters = [] → elineLt a b = true := by
    intro a b ha hb
    cases hac : a.characters with
    | nil => exact absurd hac ha
    | cons x xs =>
      simp [elineLt, EnhancedLyricLine.start_time, hac, hb]
  refine ⟨?_, hlt_of, ?_, ?_⟩
  · intro a b ha
    simp [elineLt, EnhancedLyricLine.start_time, ha]
  · intro a b ha hb
    simp [elineEq, EnhancedLyricLine.start_time, ha, hb]
  · intro l i j hij a b hai hbj hae
    obtain ⟨hilen, hia⟩ := List.getElem?_eq_some.mp hai
    obtain ⟨hjlen, hjb⟩ := List.getElem?_eq_some.mp hbj
    have hsorted : List.Sorted elineLe (sortEnhanced l) :=
      List.sorted_insertionSort elineLe l
    have hrel := List.pairwise_iff_getElem.mp hsorted i j hilen hjlen hij
    rw [hia, hjb] at hrel
    by_contra hne
    have hlt := hlt_of b a hne hae
    unfold elineLe at hrel
    rw [hlt] at hrel
    simp at hrel

/-- Witness for C10: sorting a concrete two-element list of empty lines. -/
theorem c10_empty_lines_sort_last_witness :
    (⟨[], none⟩ : EnhancedLyricLine).characters = [] :=
  c10_empty_lines_sort_last.2.2.2 [⟨[], none⟩, ⟨[], none⟩] 0 1 (by decide)
    ⟨[], none⟩ ⟨[], none⟩ (by decide) (by decide) (by decide)

/-! ### Soundness and completeness of the timed-line matcher (for C7) -/

theorem mk_toList (s : String) : String.mk s.toList = s := rfl

theorem msecN_sound (n : Nat) (l ds after : List Char)
    (h : msecN n l = some (ds, after)) :
    ds.length = n ∧ (∀ c ∈ ds, c.isDigit = true) ∧ l = ds ++ ']' :: after := by
  unfold msecN at h
  split_ifs at h with hc
  · split at h
    · next heq =>
      simp only [Option.some_inj, Prod.mk.injEq] at h
      obtain ⟨hds, hafter⟩ := h
      subst hds
      subst hafter
      refine ⟨hc.1, hc.2, ?_⟩
      conv_lhs => rw [← List.take_append_drop n l]
      rw [heq]
    · simp at h

theorem msecN_complete (n : Nat) (ds after : List Char)
    (hlen : ds.length = n) (hdig : ∀ c ∈ ds, c.isDigit = true) :
    msecN n (ds ++ ']' :: after) = some (ds, after) := by
  unfold msecN
  rw [← hlen, List.take_left, List.drop_left]
  rw [if_pos ⟨rfl, hdig⟩]
  rfl

theorem msecN_none_lt (n : Nat) (ds after : List Char)
    (hlt : n < ds.length) (hdig : ∀ c ∈ ds, c.isDigit = true) :
    msecN n (ds ++ ']' :: after) = none := by
  unfold msecN
  have htake : (ds ++ ']' :: after).take n = ds.take n := by
    rw [List.take_append_eq_append_take, Nat.sub_eq_zero_of_le (by omega),
      List.take_zero, List.append_nil]
  have hdrop : (ds ++ ']' :: after).drop n = ds.drop n ++ ']' :: after := by
    rw [List.drop_append_eq_append_drop, Nat.sub_eq_zero_of_le (by omega),
      List.drop_zero]
  rw [htake, hdrop]
  cases hdn : ds.drop n with
  | nil =>
    exfalso
    have := congrArg List.length hdn
    rw [List.length_drop] at this
    simp at this
    omega
  | cons d rest =>
    have hd_mem : d ∈ ds := by
      have : d ∈ ds.drop n := by rw [hdn]; exact List.mem_cons_self d rest
      exact List.mem_of_mem_drop this
    have hd_digit := hdig d hd_mem
    have hd_ne : d ≠ ']' := by
      intro hcontra
      rw [hcontra] at hd_digit
      simp [Char.isDigit] at hd_digit
    rw [List.cons_append]
    split_ifs with hc
    · split
      · rename_i after2 heq
        injection heq with h1 _
        exact absurd h1 hd_ne
      · rfl
    · rfl

theorem msecN_none_gt (n : Nat) (ds after : List Char)
    (hgt : ds.length < n) (hdig : ∀ c ∈ ds, c.isDigit = true) :
    msecN n (ds ++ ']' :: after) = none := by
  unfold msecN
  rw [if_neg]
  intro hc
  have htake : (ds ++ ']' :: after).take n
      = ds ++ (']' :: after).take (n - ds.length) := by
    rw [List.take_append_eq_append_take, List.take_of_length_le (by omega)]
  have hmem : ']' ∈ (ds ++ ']' :: after).take n := by
    rw [htake]
    apply List.mem_append_right
    have : n - ds.length = (n - ds.length - 1) + 1 := by omega
    rw [this, List.take_succ_cons]
    exact List.mem_cons_self _ _
  have := hc.2 ']' hmem
  simp [Char.isDigit] at this

theorem matchMsec_sound (l ms after : List Char)
    (h : matchMsec l = some (ms, after)) :
    (∀ c ∈ ms, c.isDigit = true) ∧ 1 ≤ ms.length ∧ ms.length ≤ 3
      ∧ l = ms ++ ']' :: after := by
  unfold matchMsec at h
  cases h3 : msecN 3 l with
  | some r =>
    rw [h3] at h
    simp only [Option.some_inj] at h
    subst h
    obtain ⟨hlen, hdig, hl⟩ := msecN_sound 3 l ms after h3
    exact ⟨hdig, by omega, by omega, hl⟩
  | none =>
    rw [h3] at h
    cases h2 : msecN 2 l with
    | some r =>
      rw [h2] at h
      simp only [Option.some_inj] at h
      subst h
      obtain ⟨hlen, hdig, hl⟩ := msecN_sound 2 l ms after h2
      exact ⟨hdig, by omega, by omega, hl⟩
    | none =>
      rw [h2] at h
      obtain ⟨hlen, hdig, hl⟩ := msecN_sound 1 l ms after h
      exact ⟨hdig, by omega, by omega, hl⟩

theorem matchMsec_complete (ms after : List Char)
    (hdig : ∀ c ∈ ms, c.isDigit = true)
    (h1 : 1 ≤ ms.length) (h3 : ms.length ≤ 3) :
    matchMsec (ms ++ ']' :: after) = some (ms, after) := by
  unfold matchMsec
  interval_cases hlen : ms.length
  · rw [msecN_none_gt 3 ms after (by omega) hdig,
      msecN_none_gt 2 ms after (by omega) hdig,
      msecN_complete 1 ms after hlen hdig]
  · rw [msecN_none_gt 3 ms after (by omega) hdig,
      msecN_complete 2 ms after hlen hdig]
  · rw [msecN_complete 3 ms after hlen hdig]

theorem tryTimedAt_sound (l : List Char) (mi se ms txt : String)
    (h : tryTimedAt l = some (mi, se, ms, txt)) :
    timedShape l mi se ms txt := by
  unfold tryTimedAt at h
  split at h
  · rename_i d1 d2 d3 d4 rest
    split_ifs at h with hdig
    cases hm : matchMsec rest with
    | none => rw [hm] at h; simp at h
    | some r =>
      rw [hm] at h
      simp only [Option.some_inj, Prod.mk.injEq] at h
      obtain ⟨hmi, hse, hms, htxt⟩ := h
      obtain ⟨hdigits, hlen1, hlen3, hrest⟩ := matchMsec_sound rest r.1 r.2 hm
      refine ⟨d1, d2, d3, d4, r.1, hmi.symm, hse.symm, hms.symm,
        hdig.1, hdig.2.1, hdig.2.2.1, hdig.2.2.2, hdigits, hlen1, hlen3, ?_⟩
      rw [← htxt, toList_mk, ← hrest]
  · simp at h

theorem tryTimedAt_complete (l : List Char) (mi se ms txt : String)
    (h : timedShape l mi se ms txt) :
    tryTimedAt l = some (mi, se, ms, txt) := by
  obtain ⟨d1, d2, d3, d4, msl, hmi, hse, hms, h1, h2, h3, h4, hdig, hlen1,
    hlen3, hl⟩ := h
  subst hmi hse hms hl
  show (if d1.isDigit = true ∧ d2.isDigit = true ∧ d3.isDigit = true
        ∧ d4.isDigit = true then
      match matchMsec (msl ++ ']' :: txt.toList) with
      | some (ms2, after) =>
        some ((⟨[d1, d2]⟩ : String), (⟨[d3, d4]⟩ : String),
          (⟨ms2⟩ : String), (⟨after⟩ : String))
      | none => none
    else none)
      = some ((⟨[d1, d2]⟩ : String), (⟨[d3, d4]⟩ : String),
          (⟨msl⟩ : String), txt)
  rw [if_pos ⟨h1, h2, h3, h4⟩, matchMsec_complete msl txt.toList hdig hlen1 hlen3]
  rfl

theorem tryTimedAt_nil : tryTimedAt [] = none := rfl

theorem findTimed_spec :
    ∀ l : List Char,
      (∀ r, findTimed l = some r →
        ∃ i, tryTimedAt (l.drop i) = some r
          ∧ ∀ j < i, tryTimedAt (l.drop j) = none)
      ∧ (findTimed l = none → ∀ i, tryTimedAt (l.drop i) = none)
  | [] => by
    constructor
    · intro r h
      simp [findTimed] at h
    · intro _ i
      rw [List.drop_nil]
      exact tryTimedAt_nil
  | c :: rest => by
    have ih := findTimed_spec rest
    constructor
    · intro r h
      simp only [findTimed] at h
      cases ht : tryTimedAt (c :: rest) with
      | some r2 =>
        rw [ht] at h
        simp only [Option.some_inj] at h
        subst h
        exact ⟨0, by rw [List.drop_zero]; exact ht, fun j hj => absurd hj (by omega)⟩
      | none =>
        rw [ht] at h
        obtain ⟨i, hi, hj⟩ := ih.1 r h
        refine ⟨i + 1, by rw [List.drop_succ_cons]; exact hi, ?_⟩
        intro j hj2
        match j with
        | 0 => rw [List.drop_zero]; exact ht
        | j2 + 1 =>
          rw [List.drop_succ_cons]
          exact hj j2 (by omega)
    · intro h i
      simp only [findTimed] at h
      cases ht : tryTimedAt (c :: rest) with
      | some r2 => rw [ht] at h; simp at h
      | none =>
        rw [ht] at h
        match i with
        | 0 => rw [List.drop_zero]; exact ht
        | i2 + 1 =>
          rw [List.drop_succ_cons]
          exact ih.2 h i2

/-- **C7 (amended).** For every input line of the Standard parser that is
not classified as a metadata tag: a timed line is produced if and only if
the trimmed line *contains* (anywhere — not necessarily at its start) a
`[MM:SS.fff]` timestamp pattern, the leftmost such occurrence being used;
its captured payload (the rest of the line after the bracket, verbatim,
any preceding characters discarded) becomes the line's text, provided the
timestamp value is accepted (seconds ≤ 59; otherwise parsing of the whole
text fails with the uncaught `ValueError`); a line with no occurrence of
the pattern is silently dropped, producing no output and no error. -/
theorem c7_timed_line_classification (raw : String)
    (hmeta : tagMatch (stripChars raw.toList) = none) :
    (∀ mi se ms txt,
      findTimed (stripChars raw.toList) = some (mi, se, ms, txt) →
        (∃ i, timedShape ((stripChars raw.toList).drop i) mi se ms txt
          ∧ ∀ j < i, ∀ mi2 se2 ms2 txt2,
              ¬ timedShape ((stripChars raw.toList).drop j) mi2 se2 ms2 txt2)
        ∧ (∀ t, LRCTime.mk? mi se (pyLjust3 ms) = some t →
            stdLineStep raw = some (some (Sum.inr ⟨t, txt⟩)))
        ∧ (LRCTime.mk? mi se (pyLjust3 ms) = none → stdLineStep raw = none))
    ∧ (findTimed (stripChars raw.toList) = none →
        (∀ i mi2 se2 ms2 txt2,
          ¬ timedShape ((stripChars raw.toList).drop i) mi2 se2 ms2 txt2)
        ∧ stdLineStep raw = some none) := by
  constructor
  · intro mi se ms txt hf
    refine ⟨?_, ?_, ?_⟩
    · obtain ⟨i, hi, hj⟩ := (findTimed_spec (stripChars raw.toList)).1 _ hf
      refine ⟨i, tryTimedAt_sound _ mi se ms txt hi, ?_⟩
      intro j hlt mi2 se2 ms2 txt2 hshape
      have hcontra := tryTimedAt_complete _ mi2 se2 ms2 txt2 hshape
      rw [hj j hlt] at hcontra
      simp at hcontra
    · intro t ht
      simp only [stdLineStep, hmeta, hf, ht]
    · intro ht
      simp only [stdLineStep, hmeta, hf, ht]
  · intro hf
    constructor
    · intro i mi2 se2 ms2 txt2 hshape
      have hcontra := tryTimedAt_complete _ mi2 se2 ms2 txt2 hshape
      rw [(findTimed_spec (stripChars raw.toList)).2 hf i] at hcontra
      simp at hcontra
    · simp only [stdLineStep, hmeta, hf]

/-- **C7 counterexample.** The trimmed line `"x[00:12.340]Hi"` is not a
metadata tag and does *not* begin with a timestamp pattern
(`tryTimedAt` fails at position 0), yet the parser produces a timed line
from it instead of dropping it: the source finds the pattern with
`re.findall`, which searches anywhere in the line. -/
theorem c7_counterexample :
    tagMatch (stripChars "x[00:12.340]Hi".toList) = none
    ∧ tryTimedAt (stripChars "x[00:12.340]Hi".toList) = none
    ∧ parseStd "x[00:12.340]Hi" = some ⟨[⟨⟨12340⟩, "Hi"⟩], []⟩ := by
  refine ⟨by decide, by decide, by decide⟩

/-- Witness for C7 at the concrete line `"x[00:12.340]Hi"`, whose leftmost
match has an accepted timestamp. -/
theorem c7_timed_line_classification_witness :
    stdLineStep "x[00:12.340]Hi"
      = some (some (Sum.inr ⟨⟨12340⟩, "Hi"⟩)) :=
  ((c7_timed_line_classification "x[00:12.340]Hi" (by decide)).1
    "00" "12" "340" "Hi" (by decide)).2.1 ⟨12340⟩ (by decide)
